import Mathlib

/-
Shallow embedding of the g11n message factory (src/g11n.go).

The Go package uses reflection over record (struct) types whose fields are
either string-kinded message fields or func-kinded message fields.  The
embedding makes the reflection data explicit:

  * a struct type is a name together with a list of field declarations;
  * the mutable world is a factory state (locale registry, active
    dictionary, refresh-callback list) plus a heap of objects whose slots
    hold field values;
  * Go closures are represented by the data they capture: a refresh
    callback captures the default pattern, the message key and the field it
    writes to; the synthesized message handler captures the (mutable)
    pattern variable, the message key and the result type's optional
    result-formatter hook;
  * a Go panic is modelled as an `Option String` panic message returned
    next to the state as mutated up to the point of the panic (a Go panic
    does not roll back earlier writes through the factory pointer).

The external collaborators are modelled narrowly: `fmt.Sprintf` as
positional substitution of `%v` verbs (with Go's `%!v(MISSING)` /
`%!(EXTRA ...)` markers), the pluggable locale loaders as functions from a
path to a dictionary, and the `language.Tag` values as strings (opaque,
compared for equality only).
-/

namespace G11n

/-- Association-list lookup, first match wins; models a Go map read. -/
def lookupKV {α : Type} : List (String × α) → String → Option α
  | [], _ => none
  | (k, v) :: rest, key => if k = key then some v else lookupKV rest key

/-- Remove every binding of a key; helper for map insertion. -/
def removeKV {α : Type} : List (String × α) → String → List (String × α)
  | [], _ => []
  | (k, v) :: rest, key =>
      if k = key then removeKV rest key else (k, v) :: removeKV rest key

/-- Association-list insert with overwrite; models a Go map write. -/
def insertKV {α : Type} (l : List (String × α)) (key : String) (v : α) :
    List (String × α) :=
  (key, v) :: removeKV l key

/-- Update the element at an index, identity when out of range. -/
def updateAt {α : Type} : List α → Nat → (α → α) → List α
  | [], _, _ => []
  | x :: xs, 0, f => f x :: xs
  | x :: xs, n + 1, f => x :: updateAt xs n f

/-- Character-level model of `fmt.Sprintf` restricted to `%v` verbs:
substitute arguments positionally, emitting Go's `%!v(MISSING)` marker for
a verb without an argument and the `%!(EXTRA ...)` marker for leftover
arguments. -/
def sprintfChars : List Char → List String → List Char
  | [], [] => []
  | [], a :: args =>
      ("%!(EXTRA " ++ String.intercalate ", " (a :: args) ++ ")").toList
  | '%' :: 'v' :: rest, a :: args => a.toList ++ sprintfChars rest args
  | '%' :: 'v' :: rest, [] => "%!v(MISSING)".toList ++ sprintfChars rest []
  | c :: rest, args => c :: sprintfChars rest args

/-- Model of `fmt.Sprintf` on an already-stringified argument list. -/
def sprintf (pattern : String) (args : List String) : String :=
  String.mk (sprintfChars pattern.toList args)

/-- Error message pattern `wrongResultsCountMessage` (src/g11n.go line 19). -/
def wrongResultsCountMessage : String :=
  "Wrong number of results in a g11n message. Expected 1, got %v."

/-- Error message pattern `unknownFormatMessage` (src/g11n.go line 20). -/
def unknownFormatMessage : String :=
  "Unknown locale format '%v'."

/-- Error message pattern `unknownLocaleTag` (src/g11n.go line 21). -/
def unknownLocaleTag : String :=
  "Unknown locale '%v'."

/-- A value passed as an argument to a message function: `plainVal` is what
`fmt.Sprintf` would print for the raw value with `%v`, and `paramHook` is
`some` of the `G11nParam()` output exactly when the value's type implements
the `paramFormatter` interface. -/
structure Param where
  plainVal : String
  paramHook : Option String

/-- Model of `formatParam` (src/g11n.go lines 43-51): use the
`paramFormatter` hook when the value implements it, the value itself
otherwise. -/
def formatParam (value : Param) : String :=
  match value.paramHook with
  | some s => s
  | none => value.plainVal

/-- Apply an optional `resultFormatter` hook: models the type assertion
`.(resultFormatter)` followed by `G11nResult` when it succeeds, the
identity when the type does not implement the interface. -/
def hookApply : Option (String → String) → String → String
  | some f, s => f s
  | none, s => s

/-- The type of a non-embedded record field, as reflection sees it:
a string kind (with its type's optional `resultFormatter` hook), a func
kind (with its declared number of results and the result type's optional
`resultFormatter` hook), or any other kind (named by its kind string). -/
inductive FieldType where
  | stringType (resultHook : Option (String → String))
  | funcType (numOutCount : Nat) (resultHook : Option (String → String))
  | otherType (kind : String)

/-- One declared field of a record type: a named field carrying its
`default` struct-tag pattern and its type, or an embedded (anonymous)
pointer to a sub-record with its own type name and fields. -/
inductive FieldDecl where
  | named (name defaultPattern : String) (fty : FieldType)
  | anonymous (subName : String) (subFields : List FieldDecl)

/-- A record type: its name and its declared fields in declaration order. -/
structure StructType where
  sname : String
  sfields : List FieldDecl

/-- A reference to one field slot of one heap object. -/
structure FieldRef where
  obj : Nat
  idx : Nat
deriving DecidableEq

/-- The runtime content of a field slot.  `funcVal` is the synthesized
message handler closure: its captured (mutable) pattern variable, its
message key and the result type's optional `resultFormatter` hook. -/
inductive FieldVal where
  | str (s : String)
  | funcVal (capturedPattern messageKey : String)
      (resultHook : Option (String → String))
  | nilFunc
  | ptr (addr : Nat)
  | nilPtr
  | zero

/-- A heap object: the field slots of one record instance. -/
structure Obj where
  fields : List FieldVal

/-- `localeInfo` (src/g11n.go lines 53-57). -/
structure LocaleInfo where
  format : String
  path : String

/-- The data captured by one `stringInitializer` closure registered in
`initializeField` (src/g11n.go lines 210-219): the default pattern, the
message key and the string field it writes. -/
structure RefreshCallback where
  pattern : String
  key : String
  ref : FieldRef

/-- The mutable world: the `MessageFactory` fields (src/g11n.go
lines 61-65) plus the heap of record instances the factory has wired. -/
structure St where
  locales : List (String × LocaleInfo)
  dictionary : List (String × String)
  stringInitializers : List RefreshCallback
  heap : List Obj

/-- Read a field slot. -/
def getField (st : St) (r : FieldRef) : Option FieldVal :=
  match st.heap[r.obj]? with
  | some o => o.fields[r.idx]?
  | none => none

/-- Write a field slot (identity when the reference is dangling). -/
def setField (st : St) (r : FieldRef) (v : FieldVal) : St :=
  { st with heap :=
      updateAt st.heap r.obj (fun o => ⟨updateAt o.fields r.idx (fun _ => v)⟩) }

/-- The zero value a fresh instance holds in a field slot, per kind. -/
def zeroVal : FieldDecl → FieldVal
  | .named _ _ (.stringType _) => .str ""
  | .named _ _ (.funcType _ _) => .nilFunc
  | .named _ _ (.otherType _) => .zero
  | .anonymous _ _ => .nilPtr

/-- Allocate a fresh zero-valued instance for a field list; models
`reflect.New`.  The new object's address is the old heap length. -/
def allocObject (st : St) (fs : List FieldDecl) : St :=
  { st with heap := st.heap ++ [⟨fs.map zeroVal⟩] }

/-- `New` (src/g11n.go lines 68-73): a fresh factory (with, here, an empty
heap of instances). -/
def New : St :=
  { locales := [], dictionary := [], stringInitializers := [], heap := [] }

/-- `Locales` (src/g11n.go lines 76-84): the registered tags. -/
def Locales (st : St) : List String :=
  st.locales.map Prod.fst

/-- `SetLocale` (src/g11n.go lines 87-92). -/
def SetLocale (st : St) (tag fm path : String) : St :=
  { st with locales := insertKV st.locales tag ⟨fm, path⟩ }

/-- `SetLocales` (src/g11n.go lines 95-99), over a list of registrations. -/
def SetLocales (st : St) (locales : List (String × String)) (fm : String) : St :=
  locales.foldl (fun s p => SetLocale s p.1 fm p.2) st

/-- Run one `stringInitializer` closure (src/g11n.go lines 210-219):
look the key up in the current dictionary, fall back to the captured
default pattern, and write the result into the string field. -/
def runInitializer (st : St) (cb : RefreshCallback) : St :=
  let message :=
    match lookupKV st.dictionary cb.key with
    | some messagePattern => messagePattern
    | none => cb.pattern
  setField st cb.ref (.str message)

/-- A locale loader registry: format name to loader, where a loader maps a
path to a flat dictionary (external interface `g11nLocale.GetLoader`). -/
def Loaders : Type := List (String × (String → List (String × String)))

/-- `LoadLocale` (src/g11n.go lines 103-119).  The first component is the
panic message when the call panics; the second is the state as mutated up
to that point (unchanged for the two panics, which fire before any
mutation). -/
def LoadLocale (loaders : Loaders) (st : St) (tag : String) :
    Option String × St :=
  match lookupKV st.locales tag with
  | none => (some (sprintf unknownLocaleTag [tag]), st)
  | some locale =>
    match lookupKV loaders locale.format with
    | none => (some (sprintf unknownFormatMessage [locale.format]), st)
    | some loader =>
      let st1 := { st with dictionary := loader locale.path }
      (none, st1.stringInitializers.foldl runInitializer st1)

/-- `initializeField` (src/g11n.go lines 190-237) for a non-anonymous
field.  String kind: compute the initial value (default pattern, passed
once through the field type's `resultFormatter` hook when implemented),
append the refresh closure, assign the value.  Func kind: panic unless
exactly one result is declared, then assign the synthesized handler.
Any other kind: `field.Type.NumOut()` panics in package reflect. -/
def initializeField (concreteTypeName fieldName defaultPattern : String)
    (fty : FieldType) (instanceField : FieldRef) (st : St) :
    Option String × St :=
  let messageKey := concreteTypeName ++ "." ++ fieldName
  let messagePattern := defaultPattern
  match fty with
  | .stringType resultHook =>
      let message := hookApply resultHook messagePattern
      let st1 := { st with stringInitializers :=
        st.stringInitializers ++ [⟨messagePattern, messageKey, instanceField⟩] }
      (none, setField st1 instanceField (.str message))
  | .funcType numOutCount resultHook =>
      if numOutCount ≠ 1 then
        (some (sprintf wrongResultsCountMessage [toString numOutCount]), st)
      else
        (none, setField st instanceField
          (.funcVal messagePattern messageKey resultHook))
  | .otherType kind =>
      (some ("reflect: NumOut of non-func type " ++ kind), st)

/-- `initializeStruct` (src/g11n.go lines 159-174), walking the declared
fields in order.  An anonymous field is handled as in
`initializeEmbeddedStruct` (src/g11n.go lines 177-187): allocate a fresh
sub-instance, assign it into the parent field, recurse into it.  A panic
in a field aborts the walk, keeping the mutations made so far. -/
def initFields (st : St) (addr : Nat) (tyName : String) :
    List FieldDecl → Nat → Option String × St
  | [], _ => (none, st)
  | .named n dp fty :: rest, i =>
      match initializeField tyName n dp fty ⟨addr, i⟩ st with
      | (some msg, st') => (some msg, st')
      | (none, st') => initFields st' addr tyName rest (i + 1)
  | .anonymous subName subFields :: rest, i =>
      let subAddr := st.heap.length
      let st1 := allocObject st subFields
      let st2 := setField st1 ⟨addr, i⟩ (.ptr subAddr)
      match initFields st2 subAddr subName subFields 0 with
      | (some msg, st') => (some msg, st')
      | (none, st') => initFields st' addr tyName rest (i + 1)
termination_by fs _ => sizeOf fs

/-- `initializeStruct` on a whole record instance. -/
def initializeStruct (st : St) (addr : Nat) (ty : StructType) :
    Option String × St :=
  initFields st addr ty.sname ty.sfields 0

/-- `initializeEmbeddedStruct` (src/g11n.go lines 177-187): allocate a
fresh sub-record instance, assign it into the parent field, and initialize
the sub-record's messages recursively. -/
def initializeEmbeddedStruct (st : St) (parentField : FieldRef)
    (subName : String) (subFields : List FieldDecl) : Option String × St :=
  let subAddr := st.heap.length
  let st1 := allocObject st subFields
  let st2 := setField st1 parentField (.ptr subAddr)
  initFields st2 subAddr subName subFields 0

/-- `Init` (src/g11n.go lines 122-126): initialize the message fields of
the instance at `addr` of record type `ty` (the Go function also returns
the same pointer, which the embedding keeps as the unchanged `addr`). -/
def Init (st : St) (addr : Nat) (ty : StructType) : Option String × St :=
  initializeStruct st addr ty

/-- Invoke the synthesized handler stored in a func field, with the
argument list (`messageHandler`, src/g11n.go lines 129-156): resolve the
pattern from the current dictionary — assigning the found value back into
the captured pattern variable — format the formatter-aware arguments into
the pattern, and pass the result through the result type's
`resultFormatter` hook when implemented.  `none` when the field does not
hold a synthesized handler. -/
def invokeFuncField (st : St) (r : FieldRef) (args : List Param) :
    Option (String × St) :=
  match getField st r with
  | some (.funcVal capturedPattern messageKey resultHook) =>
      let messagePattern :=
        match lookupKV st.dictionary messageKey with
        | some message => message
        | none => capturedPattern
      let formattedParams := args.map formatParam
      let message := sprintf messagePattern formattedParams
      let messageValue := hookApply resultHook message
      some (messageValue,
        setField st r (.funcVal messagePattern messageKey resultHook))
  | _ => none

/-- True when the declaration is a named (non-embedded) field. -/
def FieldDecl.isNamed : FieldDecl → Bool
  | .named _ _ _ => true
  | .anonymous _ _ => false

/-- The panic message, if any, that walking a field list raises; it is
determined by the declarations alone (string fields never panic, a func
field panics unless it declares exactly one result, any other kind panics
inside `reflect.Type.NumOut`, and an embedded sub-record panics exactly
when its own walk does). -/
def initPanic : List FieldDecl → Option String
  | [] => none
  | .named _ _ (.stringType _) :: rest => initPanic rest
  | .named _ _ (.funcType n _) :: rest =>
      if n ≠ 1 then some (sprintf wrongResultsCountMessage [toString n])
      else initPanic rest
  | .named _ _ (.otherType kind) :: _ =>
      some ("reflect: NumOut of non-func type " ++ kind)
  | .anonymous _ subFields :: rest =>
      match initPanic subFields with
      | some m => some m
      | none => initPanic rest
termination_by fs => sizeOf fs

/-- The value the field walk stores into a named field of a record type
named `nm` (meaningful when the walk does not panic on that field). -/
def flatFieldVal (nm : String) : FieldDecl → FieldVal
  | .named _ dp (.stringType resultHook) => .str (hookApply resultHook dp)
  | .named fn dp (.funcType _ resultHook) =>
      .funcVal dp (nm ++ "." ++ fn) resultHook
  | .named _ _ (.otherType _) => .zero
  | .anonymous _ _ => .nilPtr

/-- The refresh callbacks a panic-free walk of named fields appends, for a
record type named `nm`, instance `addr`, starting at field index `i`. -/
def flatCbs (nm : String) (addr : Nat) : Nat → List FieldDecl → List RefreshCallback
  | i, .named n dp (.stringType _) :: rest =>
      ⟨dp, nm ++ "." ++ n, ⟨addr, i⟩⟩ :: flatCbs nm addr (i + 1) rest
  | i, _ :: rest => flatCbs nm addr (i + 1) rest
  | _, [] => []

/-! Basic lemmas about the heap primitives. -/

theorem updateAt_length {α : Type} (l : List α) (n : Nat) (f : α → α) :
    (updateAt l n f).length = l.length := by
  induction l generalizing n with
  | nil => rfl
  | cons x xs ih => cases n <;> simp [updateAt, ih]

theorem updateAt_getElem?_self {α : Type} (l : List α) (n : Nat) (f : α → α) :
    (updateAt l n f)[n]? = (l[n]?).map f := by
  induction l generalizing n with
  | nil => simp [updateAt]
  | cons x xs ih => cases n <;> simp [updateAt, ih]

theorem updateAt_getElem?_other {α : Type} (l : List α) (n m : Nat) (f : α → α)
    (h : m ≠ n) : (updateAt l n f)[m]? = l[m]? := by
  induction l generalizing n m with
  | nil => simp [updateAt]
  | cons x xs ih =>
    cases n with
    | zero =>
      cases m with
      | zero => exact absurd rfl h
      | succ m => simp [updateAt]
    | succ n =>
      cases m with
      | zero => simp [updateAt]
      | succ m => simpa [updateAt] using ih n m (fun hh => h (by omega))

theorem updateAt_self_of_getElem? {α : Type} (l : List α) (n : Nat) (v : α)
    (h : l[n]? = some v) : updateAt l n (fun _ => v) = l := by
  induction l generalizing n with
  | nil => rfl
  | cons x xs ih =>
    cases n with
    | zero => simp_all [updateAt]
    | succ n => simp_all [updateAt]

theorem getField_setField_self (st : St) (r : FieldRef) (v : FieldVal)
    (h : (getField st r).isSome = true) :
    getField (setField st r v) r = some v := by
  obtain ⟨w, hw⟩ := Option.isSome_iff_exists.mp h
  unfold getField at hw
  cases hh : st.heap[r.obj]? with
  | none => rw [hh] at hw; exact absurd hw (by simp)
  | some o =>
    rw [hh] at hw
    simp at hw
    simp [getField, setField, updateAt_getElem?_self, hh, hw]

theorem getField_setField_dangling (st : St) (r : FieldRef) (v : FieldVal)
    (h : getField st r = none) :
    getField (setField st r v) r = none := by
  unfold getField at h ⊢
  unfold setField
  cases hh : st.heap[r.obj]? with
  | none => simp [updateAt_getElem?_self, hh]
  | some o =>
    rw [hh] at h
    simp at h
    simp [updateAt_getElem?_self, updateAt_length, hh, h]

theorem getField_setField_other (st : St) (r r' : FieldRef) (v : FieldVal)
    (h : r' ≠ r) : getField (setField st r v) r' = getField st r' := by
  unfold getField setField
  by_cases hobj : r'.obj = r.obj
  · have hidx : r'.idx ≠ r.idx := by
      intro hi
      exact h (by cases r; cases r'; simp_all)
    simp only [hobj, updateAt_getElem?_self]
    cases h2 : st.heap[r.obj]? with
    | none => simp
    | some o => simp [updateAt_getElem?_other _ _ _ _ hidx]
  · simp [updateAt_getElem?_other _ _ _ _ hobj]

theorem getField_setField_isSome (st : St) (r r' : FieldRef) (v : FieldVal) :
    (getField (setField st r v) r').isSome = (getField st r').isSome := by
  by_cases h : r' = r
  · subst h
    cases hs : (getField st r').isSome with
    | true => rw [getField_setField_self _ _ _ hs]; rfl
    | false =>
      have hn : getField st r' = none := by
        cases hg : getField st r' with
        | none => rfl
        | some w => rw [hg] at hs; simp at hs
      simp [getField_setField_dangling _ _ _ hn]
  · rw [getField_setField_other _ _ _ _ h]

theorem setField_locales (st : St) (r : FieldRef) (v : FieldVal) :
    (setField st r v).locales = st.locales := rfl

theorem setField_dictionary (st : St) (r : FieldRef) (v : FieldVal) :
    (setField st r v).dictionary = st.dictionary := rfl

theorem setField_stringInitializers (st : St) (r : FieldRef) (v : FieldVal) :
    (setField st r v).stringInitializers = st.stringInitializers := rfl

theorem setField_heap_length (st : St) (r : FieldRef) (v : FieldVal) :
    (setField st r v).heap.length = st.heap.length := by
  simp [setField, updateAt_length]

/-! Closed forms of the formatted error messages and of single-verb
substitution. -/

theorem sprintf_single_verb (s : String) : sprintf "%v" [s] = s := by
  obtain ⟨sd⟩ := s
  show String.mk (sd ++ []) = String.mk sd
  rw [List.append_nil]

theorem sprintf_unknownLocale (t : String) :
    sprintf unknownLocaleTag [t] = "Unknown locale '" ++ t ++ "'." := by
  obtain ⟨td⟩ := t
  rfl

theorem sprintf_unknownFormat (t : String) :
    sprintf unknownFormatMessage [t] = "Unknown locale format '" ++ t ++ "'." := by
  obtain ⟨td⟩ := t
  rfl

theorem sprintf_wrongResults (t : String) :
    sprintf wrongResultsCountMessage [t]
      = "Wrong number of results in a g11n message. Expected 1, got "
          ++ t ++ "." := by
  obtain ⟨td⟩ := t
  rfl

/-! Lemmas about the refresh-callback sweep performed by `LoadLocale`. -/

theorem runInitializer_dictionary (st : St) (cb : RefreshCallback) :
    (runInitializer st cb).dictionary = st.dictionary := rfl

theorem runInitializer_locales (st : St) (cb : RefreshCallback) :
    (runInitializer st cb).locales = st.locales := rfl

theorem runInitializer_stringInitializers (st : St) (cb : RefreshCallback) :
    (runInitializer st cb).stringInitializers = st.stringInitializers := rfl

theorem foldl_runInitializer_dictionary (l : List RefreshCallback) (st : St) :
    (l.foldl runInitializer st).dictionary = st.dictionary := by
  induction l generalizing st with
  | nil => rfl
  | cons c t ih => simpa [List.foldl] using ih (runInitializer st c)

theorem foldl_runInitializer_frame (l : List RefreshCallback) (st : St)
    (r : FieldRef) (h : ∀ cb ∈ l, cb.ref ≠ r) :
    getField (l.foldl runInitializer st) r = getField st r := by
  induction l generalizing st with
  | nil => rfl
  | cons c t ih =>
    have hc : c.ref ≠ r := h c (by simp)
    have step : getField (runInitializer st c) r = getField st r := by
      unfold runInitializer
      exact getField_setField_other _ _ _ _ (fun e => hc e.symm)
    calc getField ((c :: t).foldl runInitializer st) r
        = getField (t.foldl runInitializer (runInitializer st c)) r := rfl
      _ = getField (runInitializer st c) r :=
          ih (runInitializer st c) (fun cb hm => h cb (by simp [hm]))
      _ = getField st r := step

theorem foldl_runInitializer_target (l : List RefreshCallback) (st : St)
    (r : FieldRef) (K P : String)
    (hsome : (getField st r).isSome = true)
    (hex : ∃ cb ∈ l, cb.ref = r)
    (hall : ∀ cb ∈ l, cb.ref = r → cb.key = K ∧ cb.pattern = P) :
    getField (l.foldl runInitializer st) r
      = some (.str ((lookupKV st.dictionary K).getD P)) := by
  induction l generalizing st with
  | nil => obtain ⟨cb, hm, _⟩ := hex; exact absurd hm (by simp)
  | cons c t ih =>
    have hsome' : (getField (runInitializer st c) r).isSome = true := by
      unfold runInitializer
      rw [getField_setField_isSome]
      exact hsome
    by_cases hc : ∃ cb ∈ t, cb.ref = r
    · have := ih (runInitializer st c) hsome' hc
        (fun cb hm hr => hall cb (by simp [hm]) hr)
      rw [runInitializer_dictionary] at this
      exact this
    · have hcr : c.ref = r := by
        obtain ⟨cb, hm, hr⟩ := hex
        rcases List.mem_cons.mp hm with h1 | h1
        · rw [← h1]; exact hr
        · exact absurd ⟨cb, h1, hr⟩ hc
      obtain ⟨hK, hP⟩ := hall c (by simp) hcr
      have hwrite : getField (runInitializer st c) r
          = some (.str ((lookupKV st.dictionary K).getD P)) := by
        unfold runInitializer
        rw [hcr, hK, hP]
        have : (match lookupKV st.dictionary K with
                | some messagePattern => messagePattern
                | none => P) = (lookupKV st.dictionary K).getD P := by
          cases lookupKV st.dictionary K <;> rfl
        rw [this]
        exact getField_setField_self _ _ _ hsome
      have hframe : ∀ cb ∈ t, cb.ref ≠ r := by
        intro cb hm he
        exact hc ⟨cb, hm, he⟩
      calc getField ((c :: t).foldl runInitializer st) r
          = getField (t.foldl runInitializer (runInitializer st c)) r := rfl
        _ = getField (runInitializer st c) r :=
            foldl_runInitializer_frame t (runInitializer st c) r hframe
        _ = some (.str ((lookupKV st.dictionary K).getD P)) := hwrite

/-! The panic outcome of a field walk depends only on the declarations. -/

theorem initFields_fst (st : St) (addr : Nat) (nm : String)
    (fs : List FieldDecl) (i : Nat) :
    (initFields st addr nm fs i).1 = initPanic fs := by
  match fs with
  | [] => simp [initFields, initPanic]
  | .named n dp fty :: rest =>
    cases fty with
    | stringType hook =>
      simp only [initFields, initializeField, initPanic]
      exact initFields_fst _ addr nm rest (i + 1)
    | funcType cnt hook =>
      by_cases hcnt : cnt = 1
      · subst hcnt
        simp only [initFields, initializeField, initPanic]
        simpa using initFields_fst _ addr nm rest (i + 1)
      · simp [initFields, initializeField, initPanic, hcnt]
    | otherType kind =>
      simp [initFields, initializeField, initPanic]
  | .anonymous subName subFields :: rest =>
    have hsub := initFields_fst
      (setField (allocObject st subFields) ⟨addr, i⟩ (.ptr st.heap.length))
      st.heap.length subName subFields 0
    simp only [initFields, initPanic]
    cases hres : initFields
        (setField (allocObject st subFields) ⟨addr, i⟩ (.ptr st.heap.length))
        st.heap.length subName subFields 0 with
    | mk p st' =>
      rw [hres] at hsub
      simp only at hsub
      rw [← hsub]
      cases p with
      | none => simp; exact initFields_fst st' addr nm rest (i + 1)
      | some m => simp
termination_by sizeOf fs

/-! Full characterization of a panic-free walk over named fields. -/

theorem initFields_flat (st : St) (addr : Nat) (nm : String)
    (fs : List FieldDecl) (i : Nat)
    (hflat : ∀ f ∈ fs, f.isNamed = true)
    (hpan : initPanic fs = none)
    (hslots : ∀ k, i ≤ k → k < i + fs.length →
        (getField st ⟨addr, k⟩).isSome = true) :
    (initFields st addr nm fs i).1 = none ∧
    (initFields st addr nm fs i).2.locales = st.locales ∧
    (initFields st addr nm fs i).2.dictionary = st.dictionary ∧
    (initFields st addr nm fs i).2.stringInitializers
      = st.stringInitializers ++ flatCbs nm addr i fs ∧
    (initFields st addr nm fs i).2.heap.length = st.heap.length ∧
    (∀ r : FieldRef, (r.obj = addr → r.idx < i ∨ i + fs.length ≤ r.idx) →
        getField (initFields st addr nm fs i).2 r = getField st r) ∧
    (∀ j f, fs[j]? = some f →
        getField (initFields st addr nm fs i).2 ⟨addr, i + j⟩
          = some (flatFieldVal nm f)) := by
  induction fs generalizing st i with
  | nil =>
    have h0 : initFields st addr nm [] i = (none, st) := by simp [initFields]
    rw [h0]
    exact ⟨rfl, rfl, rfl, by simp [flatCbs], rfl, fun r _ => rfl,
      by intro j f hj; simp at hj⟩
  | cons f rest ih =>
    cases f with
    | anonymous subName subFields =>
      have := hflat (FieldDecl.anonymous subName subFields) (by simp)
      simp [FieldDecl.isNamed] at this
    | named n dp fty =>
      cases fty with
      | otherType kind => simp [initPanic] at hpan
      | stringType hook =>
        have hpan' : initPanic rest = none := by simpa [initPanic] using hpan
        set cb : RefreshCallback := ⟨dp, nm ++ "." ++ n, ⟨addr, i⟩⟩ with hcb
        set stepSt : St :=
          setField { st with stringInitializers := st.stringInitializers ++ [cb] }
            ⟨addr, i⟩ (.str (hookApply hook dp)) with hstep
        have hrun : initFields st addr nm (.named n dp (.stringType hook) :: rest) i
            = initFields stepSt addr nm rest (i + 1) := by
          simp [initFields, initializeField, hstep, hcb]
        have hget_step_other : ∀ r : FieldRef, r ≠ ⟨addr, i⟩ →
            getField stepSt r = getField st r := by
          intro r hr
          rw [hstep]
          exact getField_setField_other _ _ _ _ hr
        have hget_step_self : getField stepSt ⟨addr, i⟩
            = some (.str (hookApply hook dp)) := by
          rw [hstep]
          exact getField_setField_self _ _ _
            (hslots i (Nat.le_refl i) (by simp))
        obtain ⟨ih1, ih2, ih3, ih4, ih5, ih6, ih7⟩ :=
          ih stepSt (i + 1) (fun g hg => hflat g (by simp [hg])) hpan'
            (by
              intro k hk1 hk2
              have hne : (⟨addr, k⟩ : FieldRef) ≠ ⟨addr, i⟩ := by
                intro he
                cases he
                omega
              rw [hget_step_other _ hne]
              exact hslots k (by omega) (by simpa [Nat.add_comm, Nat.add_assoc,
                Nat.add_left_comm] using (by omega : k < i + (rest.length + 1))))
        rw [hrun]
        refine ⟨ih1, by rw [ih2]; rfl, by rw [ih3]; rfl, ?_, by rw [ih5]; simp [hstep, setField_heap_length], ?_, ?_⟩
        · rw [ih4]
          have : stepSt.stringInitializers = st.stringInitializers ++ [cb] := rfl
          rw [this, List.append_assoc]
          simp [flatCbs, hcb]
        · intro r hr
          have hcond : r.obj = addr → r.idx < i + 1 ∨ i + 1 + rest.length ≤ r.idx := by
            intro ho
            rcases hr ho with h1 | h1
            · exact Or.inl (by omega)
            · exact Or.inr (by simp at h1 ⊢; omega)
          rw [ih6 r hcond]
          apply hget_step_other
          intro he
          have hii : r.idx = i := by rw [he]
          have hoo : r.obj = addr := by rw [he]
          rcases hr hoo with h1 | h1
          · omega
          · simp at h1
            omega
        · intro j g hj
          cases j with
          | zero =>
            simp at hj
            subst hj
            have : getField (initFields stepSt addr nm rest (i + 1)).2 ⟨addr, i + 0⟩
                = getField stepSt ⟨addr, i + 0⟩ := by
              apply ih6
              intro _
              left
              show i + 0 < i + 1
              omega
            rw [this]
            simpa [flatFieldVal] using hget_step_self
          | succ j' =>
            simp only [List.getElem?_cons_succ] at hj
            have := ih7 j' g hj
            have hidx : i + (j' + 1) = i + 1 + j' := by omega
            rw [hidx]
            exact this
      | funcType cnt hook =>
        have hcnt : cnt = 1 := by
          by_cases hc : cnt = 1
          · exact hc
          · simp [initPanic, hc] at hpan
        subst hcnt
        have hpan' : initPanic rest = none := by simpa [initPanic] using hpan
        set stepSt : St :=
          setField st ⟨addr, i⟩ (.funcVal dp (nm ++ "." ++ n) hook) with hstep
        have hrun : initFields st addr nm (.named n dp (.funcType 1 hook) :: rest) i
            = initFields stepSt addr nm rest (i + 1) := by
          simp [initFields, initializeField, hstep]
        have hget_step_other : ∀ r : FieldRef, r ≠ ⟨addr, i⟩ →
            getField stepSt r = getField st r := by
          intro r hr
          rw [hstep]
          exact getField_setField_other _ _ _ _ hr
        have hget_step_self : getField stepSt ⟨addr, i⟩
            = some (.funcVal dp (nm ++ "." ++ n) hook) := by
          rw [hstep]
          exact getField_setField_self _ _ _
            (hslots i (Nat.le_refl i) (by simp))
        obtain ⟨ih1, ih2, ih3, ih4, ih5, ih6, ih7⟩ :=
          ih stepSt (i + 1) (fun g hg => hflat g (by simp [hg])) hpan'
            (by
              intro k hk1 hk2
              have hne : (⟨addr, k⟩ : FieldRef) ≠ ⟨addr, i⟩ := by
                intro he
                cases he
                omega
              rw [hget_step_other _ hne]
              refine hslots k (by omega) ?_
              simp at hk2 ⊢
              omega)
        rw [hrun]
        refine ⟨ih1, by rw [ih2]; rfl, by rw [ih3]; rfl, ?_, by rw [ih5]; simp [hstep, setField_heap_length], ?_, ?_⟩
        · rw [ih4]
          have : stepSt.stringInitializers = st.stringInitializers := rfl
          rw [this]
          simp [flatCbs]
        · intro r hr
          have hcond : r.obj = addr → r.idx < i + 1 ∨ i + 1 + rest.length ≤ r.idx := by
            intro ho
            rcases hr ho with h1 | h1
            · exact Or.inl (by omega)
            · exact Or.inr (by simp at h1 ⊢; omega)
          rw [ih6 r hcond]
          apply hget_step_other
          intro he
          have hii : r.idx = i := by rw [he]
          have hoo : r.obj = addr := by rw [he]
          rcases hr hoo with h1 | h1
          · omega
          · simp at h1
            omega
        · intro j g hj
          cases j with
          | zero =>
            simp at hj
            subst hj
            have : getField (initFields stepSt addr nm rest (i + 1)).2 ⟨addr, i + 0⟩
                = getField stepSt ⟨addr, i + 0⟩ := by
              apply ih6
              intro _
              left
              show i + 0 < i + 1
              omega
            rw [this]
            simpa [flatFieldVal] using hget_step_self
          | succ j' =>
            simp only [List.getElem?_cons_succ] at hj
            have := ih7 j' g hj
            have hidx : i + (j' + 1) = i + 1 + j' := by omega
            rw [hidx]
            exact this


/-! Claim C3. -/

/-- C3: calling `LoadLocale` with a tag that is not in the locale registry
fails fatally with a message naming the offending tag, and the state —
in particular the active dictionary — is completely unchanged: no refresh
callback runs. -/
theorem C3_unknown_locale_aborts (loaders : Loaders) (st : St) (tag : String)
    (h : lookupKV st.locales tag = none) :
    LoadLocale loaders st tag = (some ("Unknown locale '" ++ tag ++ "'."), st) := by
  simp [LoadLocale, h, sprintf_unknownLocale]

/-- Witness for C3 at a concrete factory and tag. -/
theorem C3_witness :
    LoadLocale [] New "de" = (some "Unknown locale 'de'.", New) :=
  C3_unknown_locale_aborts [] New "de" rfl

/-! Claim C4. -/

/-- C4: a callable field declaring `cnt` results with `cnt` different from
one makes initialization fail fatally with a message naming the actual
count, before the field is wired (the state is returned unchanged); with
exactly one declared result this failure never fires. -/
theorem C4_wrong_result_arity (tyName n dp : String) (cnt : Nat)
    (hook : Option (String → String)) (r : FieldRef) (st : St) :
    (cnt ≠ 1 →
      initializeField tyName n dp (.funcType cnt hook) r st
        = (some ("Wrong number of results in a g11n message. Expected 1, got "
            ++ toString cnt ++ "."), st)) ∧
    (cnt = 1 → (initializeField tyName n dp (.funcType cnt hook) r st).1 = none) ∧
    (cnt ≠ 1 → ∀ addr sn,
      initializeStruct st addr ⟨sn, [.named n dp (.funcType cnt hook)]⟩
        = (some ("Wrong number of results in a g11n message. Expected 1, got "
            ++ toString cnt ++ "."), st)) := by
  refine ⟨?_, ?_, ?_⟩
  · intro hne
    simp [initializeField, hne, sprintf_wrongResults]
  · intro he
    subst he
    simp [initializeField]
  · intro hne addr sn
    simp [initializeStruct, initFields, initializeField, hne, sprintf_wrongResults]

/-- Witness for C4: two declared outputs abort naming 2; one output passes
the arity check. -/
theorem C4_witness :
    initializeField "M" "F" "pat" (.funcType 2 none) ⟨0, 0⟩ New
      = (some "Wrong number of results in a g11n message. Expected 1, got 2.", New) ∧
    (initializeField "M" "F" "pat" (.funcType 1 none) ⟨0, 0⟩ New).1 = none := by
  refine ⟨?_, ?_⟩
  · have h := C4_wrong_result_arity "M" "F" "pat" 2 none ⟨0, 0⟩ New
    simpa using h.1 (by decide)
  · have h := C4_wrong_result_arity "M" "F" "pat" 1 none ⟨0, 0⟩ New
    exact h.2.1 rfl

/-! Claim C10. -/

theorem initPanic_of_other_mem (n dp kind : String) (fs : List FieldDecl)
    (hmem : (FieldDecl.named n dp (.otherType kind)) ∈ fs) :
    (initPanic fs).isSome = true := by
  induction fs with
  | nil => simp at hmem
  | cons f rest ih =>
    rcases List.mem_cons.mp hmem with he | hm
    · rw [← he]
      simp [initPanic]
    · cases f with
      | named n2 dp2 fty =>
        cases fty with
        | stringType hook => simpa [initPanic] using ih hm
        | funcType cnt hook =>
          by_cases hc : cnt = 1
          · subst hc
            simpa [initPanic] using ih hm
          · simp [initPanic, hc]
        | otherType k2 => simp [initPanic]
      | anonymous sn sf =>
        cases hs : initPanic sf with
        | some m => simp [initPanic, hs]
        | none => simpa [initPanic, hs] using ih hm

/-- C10: a non-anonymous field whose kind is neither string nor func is
never passed through silently: the field initializer panics on it (the
model of the `reflect.Type.NumOut` panic on a non-func type) leaving the
state unchanged, and a struct walk containing such a field always fails at
initialization time. -/
theorem C10_other_kind_rejected (tyName n dp kind : String) (r : FieldRef)
    (st : St) :
    (initializeField tyName n dp (.otherType kind) r st
      = (some ("reflect: NumOut of non-func type " ++ kind), st)) ∧
    (∀ (st2 : St) (addr : Nat) (ty : StructType),
        (FieldDecl.named n dp (.otherType kind)) ∈ ty.sfields →
        ((initializeStruct st2 addr ty).1).isSome = true) := by
  refine ⟨by simp [initializeField], ?_⟩
  intro st2 addr ty hmem
  unfold initializeStruct
  rw [initFields_fst]
  exact initPanic_of_other_mem n dp kind ty.sfields hmem

/-- Witness for C10 at a concrete `int` field. -/
theorem C10_witness :
    initializeField "M" "Count" "" (.otherType "int") ⟨0, 0⟩ New
      = (some "reflect: NumOut of non-func type int", New) ∧
    ((initializeStruct New 0 ⟨"M", [.named "Count" "" (.otherType "int")]⟩).1).isSome
      = true := by
  have h := C10_other_kind_rejected "M" "Count" "" "int" ⟨0, 0⟩ New
  exact ⟨h.1, h.2 New 0 ⟨"M", [.named "Count" "" (.otherType "int")]⟩ (by simp)⟩

/-! Claim C7. -/

/-- C7: an argument whose value implements the parameter-formatter hook
contributes the hook output — never its plain representation — to the
formatting step, an argument without the hook passes through unchanged,
a `%v` verb substitutes the formatted argument in place, and the handler
formats the resolved pattern with exactly the hook-aware conversions of
the argument list. -/
theorem C7_param_formatter (d s : String) :
    formatParam ⟨d, some s⟩ = s ∧
    formatParam ⟨d, none⟩ = d ∧
    (∀ t : String, sprintf "%v" [t] = t) ∧
    (∀ (st : St) (r : FieldRef) (p k : String)
        (hook : Option (String → String)) (args : List Param),
      getField st r = some (.funcVal p k hook) →
      (invokeFuncField st r args).map Prod.fst
        = some (hookApply hook (sprintf ((lookupKV st.dictionary k).getD p)
            (args.map formatParam)))) := by
  refine ⟨rfl, rfl, sprintf_single_verb, ?_⟩
  intro st r p k hook args h
  simp only [invokeFuncField, h]
  cases hl : lookupKV st.dictionary k <;> simp [hl]

/-- Witness state for C7: one func field with key `T.F`, dictionary entry
`(%v)`. -/
def c7st : St :=
  { locales := [], dictionary := [("T.F", "(%v)")],
    stringInitializers := [], heap := [⟨[.funcVal "%v!" "T.F" none]⟩] }

/-- Witness for C7: the hooked argument is substituted as `hooked`. -/
theorem C7_witness :
    formatParam ⟨"raw", some "hooked"⟩ = "hooked" ∧
    (invokeFuncField c7st ⟨0, 0⟩ [⟨"raw", some "hooked"⟩]).map Prod.fst
      = some "(hooked)" := by
  have h := C7_param_formatter "raw" "hooked"
  refine ⟨h.1, ?_⟩
  have h4 := h.2.2.2 c7st ⟨0, 0⟩ "%v!" "T.F" none [⟨"raw", some "hooked"⟩] rfl
  simpa using h4

/-! Claim C5. -/

/-- C5: with a result type implementing the result-formatter hook, every
function-field invocation applies the hook to the formatted message before
returning; a string field has the hook applied exactly once, to the value
assigned at `Init` time; and a refresh callback (run by `LoadLocale`)
writes the raw dictionary value, bypassing the hook. -/
theorem C5_result_hook_asymmetry (h : String → String) :
    (∀ (st : St) (r : FieldRef) (p k : String) (args : List Param),
      getField st r = some (.funcVal p k (some h)) →
      (invokeFuncField st r args).map Prod.fst
        = some (h (sprintf ((lookupKV st.dictionary k).getD p)
            (args.map formatParam)))) ∧
    (∀ (tyName fn dp : String) (r : FieldRef) (s0 : St),
      initializeField tyName fn dp (.stringType (some h)) r s0
        = (none, setField { s0 with stringInitializers := s0.stringInitializers
              ++ [⟨dp, tyName ++ "." ++ fn, r⟩] } r (.str (h dp)))) ∧
    (∀ (st : St) (cb : RefreshCallback) (v : String),
      lookupKV st.dictionary cb.key = some v →
      (getField st cb.ref).isSome = true →
      getField (runInitializer st cb) cb.ref = some (.str v)) := by
  refine ⟨?_, ?_, ?_⟩
  · intro st r p k args hget
    simp only [invokeFuncField, hget]
    cases hl : lookupKV st.dictionary k <;> simp [hl, hookApply]
  · intro tyName fn dp r s0
    simp [initializeField, hookApply]
  · intro st cb v hl hs
    simp only [runInitializer, hl]
    exact getField_setField_self _ _ _ hs

/-- Witness states for C5. -/
def c5hook : String → String := fun s => s ++ "!"

def c5st : St :=
  { locales := [], dictionary := [("T.F", "Hi")],
    stringInitializers := [], heap := [⟨[.funcVal "P" "T.F" (some c5hook)]⟩] }

def c5st0 : St :=
  { locales := [], dictionary := [], stringInitializers := [],
    heap := [⟨[.str ""]⟩] }

def c5st2 : St :=
  { locales := [], dictionary := [("T.F", "Hi")],
    stringInitializers := [], heap := [⟨[.str "P!"]⟩] }

/-- Witness for C5: the invocation output is hooked, the `Init`-time string
value is hooked once, and the refreshed value is the raw dictionary entry. -/
theorem C5_witness :
    (invokeFuncField c5st ⟨0, 0⟩ []).map Prod.fst = some "Hi!" ∧
    getField (initializeField "T" "F" "P" (.stringType (some c5hook))
        ⟨0, 0⟩ c5st0).2 ⟨0, 0⟩ = some (.str "P!") ∧
    getField (runInitializer c5st2 ⟨"P", "T.F", ⟨0, 0⟩⟩) ⟨0, 0⟩
      = some (.str "Hi") := by
  have h := C5_result_hook_asymmetry c5hook
  refine ⟨?_, ?_, ?_⟩
  · simpa using h.1 c5st ⟨0, 0⟩ "P" "T.F" [] rfl
  · rw [h.2.1 "T" "F" "P" ⟨0, 0⟩ c5st0]
    rfl
  · exact h.2.2 c5st2 ⟨"P", "T.F", ⟨0, 0⟩⟩ "Hi" rfl rfl

/-! Claim C6. -/

/-- C6: wiring a func field appends no refresh callback and just stores the
synthesized closure; a `LoadLocale` whose callbacks all target other fields
leaves the stored closure untouched; and an invocation resolves the
dictionary current at that moment (a present key is always used). -/
theorem C6_func_field_stable (tyName fn dp : String)
    (hook : Option (String → String)) (r : FieldRef) (s0 : St) :
    initializeField tyName fn dp (.funcType 1 hook) r s0
      = (none, setField s0 r (.funcVal dp (tyName ++ "." ++ fn) hook)) ∧
    (∀ (loaders : Loaders) (st : St) (tag : String),
      (∀ cb ∈ st.stringInitializers, cb.ref ≠ r) →
      getField (LoadLocale loaders st tag).2 r = getField st r) ∧
    (∀ (st : St) (p k : String) (args : List Param) (v : String),
      getField st r = some (.funcVal p k hook) →
      lookupKV st.dictionary k = some v →
      (invokeFuncField st r args).map Prod.fst
        = some (hookApply hook (sprintf v (args.map formatParam)))) := by
  refine ⟨by simp [initializeField], ?_, ?_⟩
  · intro loaders st tag hcb
    cases h1 : lookupKV st.locales tag with
    | none => simp [LoadLocale, h1]
    | some locale =>
      cases h2 : lookupKV loaders locale.format with
      | none => simp [LoadLocale, h1, h2]
      | some loader =>
        simp only [LoadLocale, h1, h2]
        have := foldl_runInitializer_frame st.stringInitializers
          { st with dictionary := loader locale.path } r hcb
        simpa using this
  · intro st p k args v hget hl
    simp [invokeFuncField, hget, hl]

/-- Witness state for C6: a func field at slot 0 and a string field at
slot 1 with its callback. -/
def c6st : St :=
  { locales := [("en", ⟨"json", "en.json"⟩)], dictionary := [],
    stringInitializers := [⟨"S", "T.G", ⟨0, 1⟩⟩],
    heap := [⟨[.funcVal "P" "T.F" none, .str "S"]⟩] }

def c6loaders : Loaders := [("json", fun _ => [("T.F", "Hi %v")])]

/-- Witness for C6 at concrete inputs. -/
theorem C6_witness :
    initializeField "T" "F" "P" (.funcType 1 none) ⟨0, 0⟩ New
      = (none, setField New ⟨0, 0⟩ (.funcVal "P" "T.F" none)) ∧
    getField (LoadLocale c6loaders c6st "en").2 ⟨0, 0⟩
      = some (.funcVal "P" "T.F" none) ∧
    (invokeFuncField (LoadLocale c6loaders c6st "en").2 ⟨0, 0⟩
        [⟨"Sam", none⟩]).map Prod.fst = some "Hi Sam" := by
  have h := C6_func_field_stable "T" "F" "P" none ⟨0, 0⟩ New
  refine ⟨h.1, ?_, ?_⟩
  · have h2 := h.2.1 c6loaders c6st "en" (by
      intro cb hm
      simp [c6st] at hm
      subst hm
      decide)
    rw [h2]
    rfl
  · have h2 := h.2.1 c6loaders c6st "en" (by
      intro cb hm
      simp [c6st] at hm
      subst hm
      decide)
    have h3 := h.2.2 (LoadLocale c6loaders c6st "en").2 "P" "T.F"
      [⟨"Sam", none⟩] "Hi %v" (by rw [h2]; rfl) (by rfl)
    simpa using h3


/-! Claim C1 (corrected). -/

/-- The record type of the C1 scenario: one callable field `Hello` with
default pattern `Hello, %v!`. -/
def c1Greeter : StructType :=
  ⟨"Greeter", [.named "Hello" "Hello, %v!" (.funcType 1 none)]⟩

/-- Two registered locales sharing the `yaml` loader: `fr.yaml` maps the
key to `Bonjour, %v!`, any other path yields an empty dictionary. -/
def c1loaders : Loaders :=
  [("yaml", fun path =>
    if path = "fr.yaml" then [("Greeter.Hello", "Bonjour, %v!")] else [])]

/-- The instance allocated for the C1 scenario. -/
def c1s0 : St := allocObject New c1Greeter.sfields

/-- The factory state after `Init` wires the callable field. -/
def c1sWired : St := (Init c1s0 0 c1Greeter).2

/-- The state after registering both locales and loading `fr`. -/
def c1AfterFr : St :=
  (LoadLocale c1loaders
    (SetLocale (SetLocale c1sWired "fr" "yaml" "fr.yaml") "en" "yaml" "en.yaml")
    "fr").2

/-- The state after one invocation made while `fr` is loaded. -/
def c1AfterFirstCall : St :=
  match invokeFuncField c1AfterFr ⟨0, 0⟩ [⟨"Sam", none⟩] with
  | some (_, s) => s
  | none => New

/-- The state after subsequently loading `en`, whose dictionary is empty. -/
def c1AfterEn : St := (LoadLocale c1loaders c1AfterFirstCall "en").2

/-- Explicit form of the wired state, for evaluation. -/
def c1sWiredVal : St :=
  { locales := [], dictionary := [], stringInitializers := [],
    heap := [⟨[.funcVal "Hello, %v!" "Greeter.Hello" none]⟩] }

theorem c1sWired_eq : c1sWired = c1sWiredVal := by
  simp [c1sWired, c1s0, Init, initializeStruct, initFields, initializeField,
    c1Greeter, allocObject, New, setField, updateAt, zeroVal, c1sWiredVal]

/-- Counterexample to C1 as stated: load `fr` (the key is present), invoke
once, then load `en` (the key is absent from the new active dictionary);
the next invocation formats with the stale `Bonjour, %v!` pattern taken
from the earlier dictionary, not with the construction-time default
`Hello, %v!` as the claim requires. -/
theorem C1_counterexample :
    lookupKV c1AfterEn.dictionary "Greeter.Hello" = none ∧
    (invokeFuncField c1AfterEn ⟨0, 0⟩ [⟨"Sam", none⟩]).map Prod.fst
      = some "Bonjour, Sam!" ∧
    sprintf "Hello, %v!" ["Sam"] = "Hello, Sam!" ∧
    ("Bonjour, Sam!" : String) ≠ "Hello, Sam!" := by
  have h : c1AfterEn
      = (LoadLocale c1loaders
          (match invokeFuncField
              (LoadLocale c1loaders
                (SetLocale (SetLocale c1sWiredVal "fr" "yaml" "fr.yaml")
                  "en" "yaml" "en.yaml") "fr").2
              ⟨0, 0⟩ [⟨"Sam", none⟩] with
           | some (_, s) => s
           | none => New) "en").2 := by
    unfold c1AfterEn c1AfterFirstCall c1AfterFr
    rw [c1sWired_eq]
  rw [h]
  refine ⟨by decide, by decide, by decide, by decide⟩

/-- C1 (amended): an invocation resolves its pattern as the active
dictionary's entry for the key when present — and then stores that entry
back into the captured pattern variable — and otherwise as the currently
captured pattern; the captured pattern is the struct-tag default at
construction time, so the default is used on a miss only until some
invocation finds the key present. -/
theorem C1_captured_pattern_resolution (st : St) (r : FieldRef) (p k : String)
    (hook : Option (String → String)) (args : List Param)
    (h : getField st r = some (.funcVal p k hook)) :
    (∀ v, lookupKV st.dictionary k = some v →
      invokeFuncField st r args
        = some (hookApply hook (sprintf v (args.map formatParam)),
            setField st r (.funcVal v k hook))) ∧
    (lookupKV st.dictionary k = none →
      invokeFuncField st r args
        = some (hookApply hook (sprintf p (args.map formatParam)),
            setField st r (.funcVal p k hook))) ∧
    (∀ (tyName fn dp : String) (s0 : St) (r0 : FieldRef),
      initializeField tyName fn dp (.funcType 1 hook) r0 s0
        = (none, setField s0 r0 (.funcVal dp (tyName ++ "." ++ fn) hook))) := by
  refine ⟨?_, ?_, ?_⟩
  · intro v hl
    simp [invokeFuncField, h, hl]
  · intro hl
    simp [invokeFuncField, h, hl]
  · intro tyName fn dp s0 r0
    simp [initializeField]

/-- Witness for the amended C1, at the counterexample's final state: the
key is absent, and the invocation uses the captured `Bonjour, %v!`. -/
theorem C1_witness :
    invokeFuncField c1AfterEn ⟨0, 0⟩ [⟨"Sam", none⟩]
      = some ("Bonjour, Sam!",
          setField c1AfterEn ⟨0, 0⟩
            (.funcVal "Bonjour, %v!" "Greeter.Hello" none)) := by
  have hEn : c1AfterEn
      = (LoadLocale c1loaders
          (match invokeFuncField
              (LoadLocale c1loaders
                (SetLocale (SetLocale c1sWiredVal "fr" "yaml" "fr.yaml")
                  "en" "yaml" "en.yaml") "fr").2
              ⟨0, 0⟩ [⟨"Sam", none⟩] with
           | some (_, s) => s
           | none => New) "en").2 := by
    unfold c1AfterEn c1AfterFirstCall c1AfterFr
    rw [c1sWired_eq]
  have h := C1_captured_pattern_resolution c1AfterEn ⟨0, 0⟩ "Bonjour, %v!"
    "Greeter.Hello" none [⟨"Sam", none⟩] (by rw [hEn]; rfl)
  have h2 := h.2.1 (by rw [hEn]; rfl)
  exact h2

/-! Claim C2. -/

/-- C2: after `LoadLocale` of a registered locale with a valid loader, a
string field whose refresh callback the factory holds reads as the loaded
dictionary's entry for its key when present and as its original default
pattern when absent; wiring a string field appends exactly the callback
carrying the struct-tag default pattern and the key
`TypeName.FieldName`. -/
theorem C2_string_field_after_load (loaders : Loaders) (st : St)
    (tag : String) (info : LocaleInfo)
    (loader : String → List (String × String)) (cb : RefreshCallback)
    (hreg : lookupKV st.locales tag = some info)
    (hldr : lookupKV loaders info.format = some loader)
    (hmem : cb ∈ st.stringInitializers)
    (hvalid : (getField st cb.ref).isSome = true)
    (hagree : ∀ cb' ∈ st.stringInitializers, cb'.ref = cb.ref →
      cb'.key = cb.key ∧ cb'.pattern = cb.pattern) :
    (LoadLocale loaders st tag).1 = none ∧
    (∀ v, lookupKV (loader info.path) cb.key = some v →
      getField (LoadLocale loaders st tag).2 cb.ref = some (.str v)) ∧
    (lookupKV (loader info.path) cb.key = none →
      getField (LoadLocale loaders st tag).2 cb.ref = some (.str cb.pattern)) ∧
    (∀ (tyName fn dp : String) (hook : Option (String → String))
        (r : FieldRef) (s0 : St),
      (initializeField tyName fn dp (.stringType hook) r s0).2.stringInitializers
        = s0.stringInitializers ++ [⟨dp, tyName ++ "." ++ fn, r⟩]) := by
  have hload2 : (LoadLocale loaders st tag).2
      = List.foldl runInitializer { st with dictionary := loader info.path }
          st.stringInitializers := by
    simp [LoadLocale, hreg, hldr]
  have hfold := foldl_runInitializer_target st.stringInitializers
      { st with dictionary := loader info.path } cb.ref cb.key cb.pattern
      hvalid ⟨cb, hmem, rfl⟩ hagree
  refine ⟨by simp [LoadLocale, hreg, hldr], ?_, ?_, ?_⟩
  · intro v hv
    rw [hload2, hfold]
    simp only []
    rw [show lookupKV (loader info.path) cb.key = some v from hv]
    rfl
  · intro hv
    rw [hload2, hfold]
    simp only []
    rw [show lookupKV (loader info.path) cb.key = none from hv]
    rfl
  · intro tyName fn dp hook r s0
    simp [initializeField, setField]

/-- Witness states for C2: one string field with key `T.F`, default `Hi`,
a registered locale `en` whose loader maps the key to `Hallo`. -/
def c2cb : RefreshCallback := ⟨"Hi", "T.F", ⟨0, 0⟩⟩

def c2loader : String → List (String × String) := fun _ => [("T.F", "Hallo")]

def c2st : St :=
  { locales := [("en", ⟨"json", "en.json"⟩)], dictionary := [],
    stringInitializers := [c2cb], heap := [⟨[.str "Hi"]⟩] }

def c2loaders : Loaders := [("json", c2loader)]

/-- Witness for C2 at the concrete factory. -/
theorem C2_witness :
    (LoadLocale c2loaders c2st "en").1 = none ∧
    getField (LoadLocale c2loaders c2st "en").2 ⟨0, 0⟩ = some (.str "Hallo") := by
  have h := C2_string_field_after_load c2loaders c2st "en" ⟨"json", "en.json"⟩
    c2loader c2cb rfl rfl (by simp [c2st]) rfl
    (by
      intro cb' hm hr
      simp [c2st] at hm
      subst hm
      exact ⟨rfl, rfl⟩)
  exact ⟨h.1, h.2.1 "Hallo" rfl⟩


/-! Claim C8. -/

theorem getField_allocObject (st : St) (fs : List FieldDecl) (r : FieldRef)
    (h : r.obj < st.heap.length) :
    getField (allocObject st fs) r = getField st r := by
  unfold getField allocObject
  simp only [List.getElem?_append, h, if_pos]

/-! General (embedded-struct-capable) characterization of the walk. -/

theorem obj_lt_of_getField_isSome (st : St) (r : FieldRef)
    (h : (getField st r).isSome = true) : r.obj < st.heap.length := by
  by_contra hcon
  have hnone : st.heap[r.obj]? = none := by
    rw [List.getElem?_eq_none_iff]
    omega
  unfold getField at h
  rw [hnone] at h
  simp at h

theorem initializeField_facts (tyName n dp : String) (fty : FieldType)
    (r : FieldRef) (st : St) :
    (initializeField tyName n dp fty r st).2.locales = st.locales ∧
    (initializeField tyName n dp fty r st).2.dictionary = st.dictionary ∧
    (initializeField tyName n dp fty r st).2.heap.length = st.heap.length ∧
    (∃ d, (initializeField tyName n dp fty r st).2.stringInitializers
        = st.stringInitializers ++ d) ∧
    (∀ r' : FieldRef, r' ≠ r →
        getField (initializeField tyName n dp fty r st).2 r'
          = getField st r') := by
  cases fty with
  | stringType hook =>
    refine ⟨rfl, rfl, by simp [initializeField, setField_heap_length],
      ⟨[⟨dp, tyName ++ "." ++ n, r⟩], rfl⟩, ?_⟩
    intro r' hr
    exact getField_setField_other _ _ _ _ hr
  | funcType cnt hook =>
    by_cases hc : cnt ≠ 1
    · have h0 : initializeField tyName n dp (.funcType cnt hook) r st
          = (some (sprintf wrongResultsCountMessage [toString cnt]), st) := by
        simp [initializeField, hc]
      rw [h0]
      exact ⟨rfl, rfl, rfl, ⟨[], by simp⟩, fun r' _ => rfl⟩
    · have h0 : initializeField tyName n dp (.funcType cnt hook) r st
          = (none, setField st r (.funcVal dp (tyName ++ "." ++ n) hook)) := by
        simp [initializeField, hc]
      rw [h0]
      refine ⟨rfl, rfl, by simp [setField_heap_length],
        ⟨[], by simp [setField_stringInitializers]⟩, ?_⟩
      intro r' hr
      exact getField_setField_other _ _ _ _ hr
  | otherType kind =>
    have h0 : initializeField tyName n dp (.otherType kind) r st
        = (some ("reflect: NumOut of non-func type " ++ kind), st) := by
      simp [initializeField]
    rw [h0]
    exact ⟨rfl, rfl, rfl, ⟨[], by simp⟩, fun r' _ => rfl⟩

theorem initFields_general (st : St) (addr : Nat) (nm : String)
    (fs : List FieldDecl) (i : Nat) :
    (initFields st addr nm fs i).2.locales = st.locales ∧
    (initFields st addr nm fs i).2.dictionary = st.dictionary ∧
    st.heap.length ≤ (initFields st addr nm fs i).2.heap.length ∧
    (∃ delta, (initFields st addr nm fs i).2.stringInitializers
        = st.stringInitializers ++ delta) ∧
    (∀ r : FieldRef, r.obj < st.heap.length → (r.obj = addr → r.idx < i) →
        getField (initFields st addr nm fs i).2 r = getField st r) := by
  match fs with
  | [] =>
    have h0 : initFields st addr nm [] i = (none, st) := by simp [initFields]
    rw [h0]
    exact ⟨rfl, rfl, Nat.le_refl _, ⟨[], by simp⟩, fun r _ _ => rfl⟩
  | .named n dp fty :: rest =>
    rcases hres : initializeField nm n dp fty ⟨addr, i⟩ st with ⟨p, st'⟩
    have hfacts := initializeField_facts nm n dp fty ⟨addr, i⟩ st
    rw [hres] at hfacts
    dsimp only at hfacts
    obtain ⟨f1, f2, f3, ⟨d0, f4⟩, f5⟩ := hfacts
    have hner : ∀ r : FieldRef, r.obj < st.heap.length →
        (r.obj = addr → r.idx < i) → r ≠ (⟨addr, i⟩ : FieldRef) := by
      intro r _ hcond he
      have h1 : r.obj = addr := by rw [he]
      have h2 : r.idx = i := by rw [he]
      have := hcond h1
      omega
    cases p with
    | some msg =>
      have hrun : initFields st addr nm (.named n dp fty :: rest) i
          = (some msg, st') := by
        simp [initFields, hres]
      rw [hrun]
      exact ⟨f1, f2, Nat.le_of_eq f3.symm, ⟨d0, f4⟩,
        fun r hl hcond => f5 r (hner r hl hcond)⟩
    | none =>
      have hrun : initFields st addr nm (.named n dp fty :: rest) i
          = initFields st' addr nm rest (i + 1) := by
        simp [initFields, hres]
      rw [hrun]
      obtain ⟨g1, g2, g3, ⟨d1, g4⟩, g5⟩ :=
        initFields_general st' addr nm rest (i + 1)
      refine ⟨g1.trans f1, g2.trans f2, le_trans (Nat.le_of_eq f3.symm) g3,
        ⟨d0 ++ d1, by rw [g4, f4, List.append_assoc]⟩, ?_⟩
      intro r hl hcond
      have hstep : getField (initFields st' addr nm rest (i + 1)).2 r
          = getField st' r := by
        refine g5 r (by omega) ?_
        intro ho
        have := hcond ho
        omega
      rw [hstep]
      exact f5 r (hner r hl hcond)
  | .anonymous subName subFields :: rest =>
    rcases hsub : initFields
        (setField (allocObject st subFields) ⟨addr, i⟩ (.ptr st.heap.length))
        st.heap.length subName subFields 0 with ⟨p, stS⟩
    obtain ⟨s1, s2, s3, ⟨dS, s4⟩, s5⟩ :=
      initFields_general
        (setField (allocObject st subFields) ⟨addr, i⟩ (.ptr st.heap.length))
        st.heap.length subName subFields 0
    rw [hsub] at s1 s2 s3 s4 s5
    dsimp only at s1 s2 s3 s4 s5
    have hst2len : (setField (allocObject st subFields) ⟨addr, i⟩
        (.ptr st.heap.length)).heap.length = st.heap.length + 1 := by
      rw [setField_heap_length]
      simp [allocObject]
    have hst2frame : ∀ r : FieldRef, r.obj < st.heap.length →
        r ≠ (⟨addr, i⟩ : FieldRef) →
        getField (setField (allocObject st subFields) ⟨addr, i⟩
          (.ptr st.heap.length)) r = getField st r := by
      intro r hl hne
      rw [getField_setField_other _ _ _ _ hne]
      exact getField_allocObject _ _ _ hl
    have hner : ∀ r : FieldRef, r.obj < st.heap.length →
        (r.obj = addr → r.idx < i) → r ≠ (⟨addr, i⟩ : FieldRef) := by
      intro r _ hcond he
      have h1 : r.obj = addr := by rw [he]
      have h2 : r.idx = i := by rw [he]
      have := hcond h1
      omega
    have hchain : ∀ r : FieldRef, r.obj < st.heap.length →
        (r.obj = addr → r.idx < i) → getField stS r = getField st r := by
      intro r hl hcond
      have h1 : getField stS r = getField
          (setField (allocObject st subFields) ⟨addr, i⟩ (.ptr st.heap.length))
          r := by
        refine s5 r (by omega) ?_
        intro ho
        omega
      rw [h1]
      exact hst2frame r hl (hner r hl hcond)
    cases p with
    | some msg =>
      have hrun : initFields st addr nm (.anonymous subName subFields :: rest) i
          = (some msg, stS) := by
        simp [initFields, hsub]
      rw [hrun]
      dsimp only
      refine ⟨?_, ?_, by omega, ⟨dS, ?_⟩, hchain⟩
      · rw [s1]; rfl
      · rw [s2]; rfl
      · rw [s4]; rfl
    | none =>
      have hrun : initFields st addr nm (.anonymous subName subFields :: rest) i
          = initFields stS addr nm rest (i + 1) := by
        simp [initFields, hsub]
      rw [hrun]
      obtain ⟨g1, g2, g3, ⟨d1, g4⟩, g5⟩ :=
        initFields_general stS addr nm rest (i + 1)
      refine ⟨by rw [g1, s1]; rfl, by rw [g2, s2]; rfl, by omega,
        ⟨dS ++ d1, by rw [g4, s4, List.append_assoc]; rfl⟩, ?_⟩
      intro r hl hcond
      have hstep : getField (initFields stS addr nm rest (i + 1)).2 r
          = getField stS r := by
        refine g5 r (by omega) ?_
        intro ho
        have := hcond ho
        omega
      rw [hstep]
      exact hchain r hl hcond
termination_by sizeOf fs


/-- The (default pattern, message key) pairs of the refresh callbacks a
panic-free walk appends — including those of embedded sub-records, whose
keys derive from the sub-record's own type name — computed from the
declarations alone. -/
def cbSpec (nm : String) : List FieldDecl → List (String × String)
  | [] => []
  | .named n dp (.stringType _) :: rest => (dp, nm ++ "." ++ n) :: cbSpec nm rest
  | .named _ _ _ :: rest => cbSpec nm rest
  | .anonymous sn sf :: rest => cbSpec sn sf ++ cbSpec nm rest
termination_by fs => sizeOf fs

theorem initFields_cbs (st : St) (addr : Nat) (nm : String)
    (fs : List FieldDecl) (i : Nat)
    (hsucc : (initFields st addr nm fs i).1 = none) :
    ∃ delta, (initFields st addr nm fs i).2.stringInitializers
        = st.stringInitializers ++ delta
      ∧ delta.map (fun cb => (cb.pattern, cb.key)) = cbSpec nm fs := by
  match fs with
  | [] =>
    have h0 : initFields st addr nm [] i = (none, st) := by simp [initFields]
    rw [h0]
    exact ⟨[], by simp, by simp [cbSpec]⟩
  | .named n dp fty :: rest =>
    cases fty with
    | stringType hook =>
      have hrun : initFields st addr nm (.named n dp (.stringType hook) :: rest) i
          = initFields (setField { st with stringInitializers :=
              st.stringInitializers ++ [⟨dp, nm ++ "." ++ n, ⟨addr, i⟩⟩] }
              ⟨addr, i⟩ (.str (hookApply hook dp))) addr nm rest (i + 1) := by
        simp [initFields, initializeField]
      rw [hrun] at hsucc ⊢
      obtain ⟨d1, hd1, hd1m⟩ := initFields_cbs
        (setField { st with stringInitializers :=
            st.stringInitializers ++ [⟨dp, nm ++ "." ++ n, ⟨addr, i⟩⟩] }
            ⟨addr, i⟩ (.str (hookApply hook dp))) addr nm rest (i + 1) hsucc
      refine ⟨⟨dp, nm ++ "." ++ n, ⟨addr, i⟩⟩ :: d1, ?_, ?_⟩
      · rw [hd1]
        show (st.stringInitializers
            ++ [⟨dp, nm ++ "." ++ n, ⟨addr, i⟩⟩]) ++ d1 = _
        rw [List.append_assoc]
        rfl
      · simp [cbSpec, hd1m]
    | funcType cnt hook =>
      by_cases hc : cnt = 1
      · subst hc
        have hrun : initFields st addr nm
            (.named n dp (.funcType 1 hook) :: rest) i
            = initFields (setField st ⟨addr, i⟩
                (.funcVal dp (nm ++ "." ++ n) hook)) addr nm rest (i + 1) := by
          simp [initFields, initializeField]
        rw [hrun] at hsucc ⊢
        obtain ⟨d1, hd1, hd1m⟩ := initFields_cbs
          (setField st ⟨addr, i⟩ (.funcVal dp (nm ++ "." ++ n) hook))
          addr nm rest (i + 1) hsucc
        exact ⟨d1, by rw [hd1]; rfl, by simp [cbSpec, hd1m]⟩
      · exfalso
        rw [initFields_fst] at hsucc
        simp [initPanic, hc] at hsucc
    | otherType kind =>
      exfalso
      rw [initFields_fst] at hsucc
      simp [initPanic] at hsucc
  | .anonymous subName subFields :: rest =>
    rcases hsub : initFields
        (setField (allocObject st subFields) ⟨addr, i⟩ (.ptr st.heap.length))
        st.heap.length subName subFields 0 with ⟨p, stS⟩
    cases p with
    | some msg =>
      exfalso
      have hrun : initFields st addr nm (.anonymous subName subFields :: rest) i
          = (some msg, stS) := by
        simp [initFields, hsub]
      rw [hrun] at hsucc
      simp at hsucc
    | none =>
      have hrun : initFields st addr nm (.anonymous subName subFields :: rest) i
          = initFields stS addr nm rest (i + 1) := by
        simp [initFields, hsub]
      rw [hrun] at hsucc ⊢
      obtain ⟨dS, hdS, hdSm⟩ := initFields_cbs
        (setField (allocObject st subFields) ⟨addr, i⟩ (.ptr st.heap.length))
        st.heap.length subName subFields 0 (by rw [hsub])
      rw [hsub] at hdS
      dsimp only at hdS
      obtain ⟨d1, hd1, hd1m⟩ := initFields_cbs stS addr nm rest (i + 1) hsucc
      refine ⟨dS ++ d1, ?_, ?_⟩
      · rw [hd1, hdS, List.append_assoc]
        rfl
      · simp [cbSpec, hdSm, hd1m]
termination_by sizeOf fs

/-- A record instance is wired per its declarations: every named field
holds the value the walk stores for it (with keys derived from `nm`), and
every embedded field points to a later-allocated, recursively wired fresh
sub-instance. -/
def wiredIn (st : St) (nm : String) (addr : Nat) :
    List FieldDecl → Nat → Prop
  | [], _ => True
  | .named n dp fty :: rest, i =>
      getField st ⟨addr, i⟩ = some (flatFieldVal nm (.named n dp fty))
        ∧ wiredIn st nm addr rest (i + 1)
  | .anonymous sn sf :: rest, i =>
      (∃ a, addr < a ∧ a < st.heap.length
          ∧ getField st ⟨addr, i⟩ = some (.ptr a)
          ∧ wiredIn st sn a sf 0)
        ∧ wiredIn st nm addr rest (i + 1)
termination_by fs _ => sizeOf fs

theorem wiredIn_stable (st st' : St) (nm : String) (addr : Nat)
    (fs : List FieldDecl) (i : Nat)
    (hlen : st.heap.length ≤ st'.heap.length)
    (hpres : ∀ r : FieldRef, r.obj < st.heap.length → addr ≤ r.obj →
        (r.obj = addr → r.idx < i + fs.length) →
        getField st' r = getField st r)
    (hw : wiredIn st nm addr fs i) : wiredIn st' nm addr fs i := by
  match fs with
  | [] => simp [wiredIn]
  | .named n dp fty :: rest =>
    rw [wiredIn] at hw ⊢
    obtain ⟨h1, h2⟩ := hw
    have haddr : addr < st.heap.length :=
      obj_lt_of_getField_isSome st ⟨addr, i⟩ (by simp [h1])
    refine ⟨?_, ?_⟩
    · rw [hpres ⟨addr, i⟩ haddr (Nat.le_refl _)
        (by intro _; show i < i + (rest.length + 1); omega)]
      exact h1
    · exact wiredIn_stable st st' nm addr rest (i + 1) hlen
        (by
          intro r hl ha hcond
          refine hpres r hl ha ?_
          intro ho
          have := hcond ho
          simp at this ⊢
          omega)
        h2
  | .anonymous sn sf :: rest =>
    rw [wiredIn] at hw ⊢
    obtain ⟨⟨a, ha1, ha2, ha3, ha4⟩, h2⟩ := hw
    have haddr : addr < st.heap.length :=
      obj_lt_of_getField_isSome st ⟨addr, i⟩ (by simp [ha3])
    refine ⟨⟨a, ha1, by omega, ?_, ?_⟩, ?_⟩
    · rw [hpres ⟨addr, i⟩ haddr (Nat.le_refl _)
        (by intro _; show i < i + (rest.length + 1); omega)]
      exact ha3
    · exact wiredIn_stable st st' sn a sf 0 hlen
        (by
          intro r hl ha hcond
          refine hpres r hl (by omega) ?_
          intro ho
          omega)
        ha4
    · exact wiredIn_stable st st' nm addr rest (i + 1) hlen
        (by
          intro r hl ha hcond
          refine hpres r hl ha ?_
          intro ho
          have := hcond ho
          simp at this ⊢
          omega)
        h2
termination_by sizeOf fs

theorem wiredIn_getElem (st : St) (nm : String) (addr : Nat)
    (fs : List FieldDecl) (i : Nat) (hw : wiredIn st nm addr fs i)
    (j : Nat) (n dp : String) (fty : FieldType)
    (hj : fs[j]? = some (.named n dp fty)) :
    getField st ⟨addr, i + j⟩ = some (flatFieldVal nm (.named n dp fty)) := by
  induction fs generalizing i j with
  | nil => simp at hj
  | cons f rest ih =>
    cases j with
    | zero =>
      simp only [List.getElem?_cons_zero, Option.some.injEq] at hj
      subst hj
      rw [wiredIn] at hw
      rw [show (⟨addr, i + 0⟩ : FieldRef) = ⟨addr, i⟩ by simp]
      exact hw.1
    | succ j' =>
      simp only [List.getElem?_cons_succ] at hj
      have hrest : wiredIn st nm addr rest (i + 1) := by
        cases f with
        | named a b c => rw [wiredIn] at hw; exact hw.2
        | anonymous a b => rw [wiredIn] at hw; exact hw.2
      have := ih (i + 1) hrest j' hj
      rw [show (⟨addr, i + (j' + 1)⟩ : FieldRef)
          = ⟨addr, i + 1 + j'⟩ by simp; omega]
      exact this

theorem wiredIn_slots (st : St) (nm : String) (addr : Nat)
    (fs : List FieldDecl) (i : Nat) (hw : wiredIn st nm addr fs i)
    (j : Nat) (hj : j < fs.length) :
    (getField st ⟨addr, i + j⟩).isSome = true := by
  induction fs generalizing i j with
  | nil => simp at hj
  | cons f rest ih =>
    cases j with
    | zero =>
      rw [show (⟨addr, i + 0⟩ : FieldRef) = ⟨addr, i⟩ by simp]
      cases f with
      | named a b c => rw [wiredIn] at hw; simp [hw.1]
      | anonymous a b =>
        rw [wiredIn] at hw
        obtain ⟨⟨x, _, _, hx, _⟩, _⟩ := hw
        simp [hx]
    | succ j' =>
      have hrest : wiredIn st nm addr rest (i + 1) := by
        cases f with
        | named a b c => rw [wiredIn] at hw; exact hw.2
        | anonymous a b => rw [wiredIn] at hw; exact hw.2
      have := ih (i + 1) hrest j' (by simp at hj; omega)
      rw [show (⟨addr, i + (j' + 1)⟩ : FieldRef)
          = ⟨addr, i + 1 + j'⟩ by simp; omega]
      exact this


theorem initFields_wired (st : St) (addr : Nat) (nm : String)
    (fs : List FieldDecl) (i : Nat)
    (haddr : addr < st.heap.length)
    (hslots : ∀ k, i ≤ k → k < i + fs.length →
        (getField st ⟨addr, k⟩).isSome = true)
    (hsucc : (initFields st addr nm fs i).1 = none) :
    wiredIn (initFields st addr nm fs i).2 nm addr fs i := by
  match fs with
  | [] =>
    have h0 : initFields st addr nm [] i = (none, st) := by simp [initFields]
    rw [h0]
    simp [wiredIn]
  | .named n dp fty :: rest =>
    cases fty with
    | stringType hook =>
      have hrun : initFields st addr nm (.named n dp (.stringType hook) :: rest) i
          = initFields (setField { st with stringInitializers :=
              st.stringInitializers ++ [⟨dp, nm ++ "." ++ n, ⟨addr, i⟩⟩] }
              ⟨addr, i⟩ (.str (hookApply hook dp))) addr nm rest (i + 1) := by
        simp [initFields, initializeField]
      rw [hrun] at hsucc ⊢
      have hlen_step : (setField { st with stringInitializers :=
          st.stringInitializers ++ [⟨dp, nm ++ "." ++ n, ⟨addr, i⟩⟩] }
          ⟨addr, i⟩ (.str (hookApply hook dp))).heap.length
          = st.heap.length := by
        rw [setField_heap_length]
      have hself : getField (setField { st with stringInitializers :=
          st.stringInitializers ++ [⟨dp, nm ++ "." ++ n, ⟨addr, i⟩⟩] }
          ⟨addr, i⟩ (.str (hookApply hook dp))) ⟨addr, i⟩
          = some (.str (hookApply hook dp)) :=
        getField_setField_self _ _ _
          (hslots i (Nat.le_refl _) (by show i < i + (rest.length + 1); omega))
      obtain ⟨g1, g2, g3, ⟨d1, g4⟩, g5⟩ := initFields_general
        (setField { st with stringInitializers :=
          st.stringInitializers ++ [⟨dp, nm ++ "." ++ n, ⟨addr, i⟩⟩] }
          ⟨addr, i⟩ (.str (hookApply hook dp))) addr nm rest (i + 1)
      have hwrest := initFields_wired
        (setField { st with stringInitializers :=
          st.stringInitializers ++ [⟨dp, nm ++ "." ++ n, ⟨addr, i⟩⟩] }
          ⟨addr, i⟩ (.str (hookApply hook dp))) addr nm rest (i + 1)
        (by omega)
        (by
          intro k hk1 hk2
          have hne : (⟨addr, k⟩ : FieldRef) ≠ ⟨addr, i⟩ := by
            intro he
            have : k = i := congrArg FieldRef.idx he
            omega
          rw [getField_setField_other _ _ _ _ hne]
          exact hslots k (by omega) (by show k < i + (rest.length + 1); omega))
        hsucc
      rw [wiredIn]
      refine ⟨?_, hwrest⟩
      rw [g5 ⟨addr, i⟩ (by show addr < _; omega)
        (by intro _; show i < i + 1; omega)]
      exact hself
    | funcType cnt hook =>
      by_cases hc : cnt = 1
      case neg =>
        exfalso
        rw [initFields_fst] at hsucc
        simp [initPanic, hc] at hsucc
      case pos =>
      subst hc
      have hrun : initFields st addr nm (.named n dp (.funcType 1 hook) :: rest) i
          = initFields (setField st ⟨addr, i⟩
              (.funcVal dp (nm ++ "." ++ n) hook)) addr nm rest (i + 1) := by
        simp [initFields, initializeField]
      rw [hrun] at hsucc ⊢
      have hlen_step : (setField st ⟨addr, i⟩
          (.funcVal dp (nm ++ "." ++ n) hook)).heap.length = st.heap.length := by
        rw [setField_heap_length]
      have hself : getField (setField st ⟨addr, i⟩
          (.funcVal dp (nm ++ "." ++ n) hook)) ⟨addr, i⟩
          = some (.funcVal dp (nm ++ "." ++ n) hook) :=
        getField_setField_self _ _ _
          (hslots i (Nat.le_refl _) (by show i < i + (rest.length + 1); omega))
      obtain ⟨g1, g2, g3, ⟨d1, g4⟩, g5⟩ := initFields_general
        (setField st ⟨addr, i⟩ (.funcVal dp (nm ++ "." ++ n) hook))
        addr nm rest (i + 1)
      have hwrest := initFields_wired
        (setField st ⟨addr, i⟩ (.funcVal dp (nm ++ "." ++ n) hook))
        addr nm rest (i + 1)
        (by omega)
        (by
          intro k hk1 hk2
          have hne : (⟨addr, k⟩ : FieldRef) ≠ ⟨addr, i⟩ := by
            intro he
            have : k = i := congrArg FieldRef.idx he
            omega
          rw [getField_setField_other _ _ _ _ hne]
          exact hslots k (by omega) (by show k < i + (rest.length + 1); omega))
        hsucc
      rw [wiredIn]
      refine ⟨?_, hwrest⟩
      rw [g5 ⟨addr, i⟩ (by show addr < _; omega)
        (by intro _; show i < i + 1; omega)]
      exact hself
    | otherType kind =>
      exfalso
      rw [initFields_fst] at hsucc
      simp [initPanic] at hsucc
  | .anonymous subName subFields :: rest =>
    rcases hsub : initFields
        (setField (allocObject st subFields) ⟨addr, i⟩ (.ptr st.heap.length))
        st.heap.length subName subFields 0 with ⟨p, stS⟩
    cases p with
    | some msg =>
      exfalso
      have hrun : initFields st addr nm (.anonymous subName subFields :: rest) i
          = (some msg, stS) := by
        simp [initFields, hsub]
      rw [hrun] at hsucc
      simp at hsucc
    | none =>
      have hrun : initFields st addr nm (.anonymous subName subFields :: rest) i
          = initFields stS addr nm rest (i + 1) := by
        simp [initFields, hsub]
      rw [hrun] at hsucc ⊢
      have hst2len : (setField (allocObject st subFields) ⟨addr, i⟩
          (.ptr st.heap.length)).heap.length = st.heap.length + 1 := by
        rw [setField_heap_length]
        simp [allocObject]
      have hsubslots : ∀ k, 0 ≤ k → k < 0 + subFields.length →
          (getField (setField (allocObject st subFields) ⟨addr, i⟩
            (.ptr st.heap.length)) ⟨st.heap.length, k⟩).isSome = true := by
        intro k _ hk
        have hne : (⟨st.heap.length, k⟩ : FieldRef) ≠ ⟨addr, i⟩ := by
          intro he
          have : st.heap.length = addr := congrArg FieldRef.obj he
          omega
        rw [getField_setField_other _ _ _ _ hne]
        unfold getField
        rw [show (allocObject st subFields).heap[st.heap.length]?
            = some ⟨subFields.map zeroVal⟩ from by
          unfold allocObject
          exact List.getElem?_concat_length _ _]
        have hk' : k < (subFields.map zeroVal).length := by simp; omega
        simp [List.getElem?_eq_getElem hk']
      have hsubwired0 := initFields_wired
        (setField (allocObject st subFields) ⟨addr, i⟩ (.ptr st.heap.length))
        st.heap.length subName subFields 0 (by omega) hsubslots (by rw [hsub])
      rw [hsub] at hsubwired0
      dsimp only at hsubwired0
      obtain ⟨s1, s2, s3, ⟨dS, s4⟩, s5⟩ := initFields_general
        (setField (allocObject st subFields) ⟨addr, i⟩ (.ptr st.heap.length))
        st.heap.length subName subFields 0
      rw [hsub] at s1 s2 s3 s4 s5
      dsimp only at s1 s2 s3 s4 s5
      obtain ⟨g1, g2, g3, ⟨d1, g4⟩, g5⟩ :=
        initFields_general stS addr nm rest (i + 1)
      have hval2 : getField (setField (allocObject st subFields) ⟨addr, i⟩
          (.ptr st.heap.length)) ⟨addr, i⟩ = some (.ptr st.heap.length) := by
        refine getField_setField_self _ _ _ ?_
        rw [getField_allocObject _ _ _ (by show addr < _; omega)]
        exact hslots i (Nat.le_refl _) (by show i < i + (rest.length + 1); omega)
      have hvalS : getField stS ⟨addr, i⟩ = some (.ptr st.heap.length) := by
        rw [s5 ⟨addr, i⟩ (by show addr < _; omega)
          (by
            intro ho
            have h' : addr = st.heap.length := ho
            omega)]
        exact hval2
      have hvalF : getField (initFields stS addr nm rest (i + 1)).2 ⟨addr, i⟩
          = some (.ptr st.heap.length) := by
        rw [g5 ⟨addr, i⟩ (by show addr < stS.heap.length; omega)
          (by intro _; show i < i + 1; omega)]
        exact hvalS
      have hrestslots : ∀ k, i + 1 ≤ k → k < i + 1 + rest.length →
          (getField stS ⟨addr, k⟩).isSome = true := by
        intro k hk1 hk2
        have hpre : getField stS ⟨addr, k⟩ = getField st ⟨addr, k⟩ := by
          rw [s5 ⟨addr, k⟩ (by show addr < _; omega)
            (by
              intro ho
              have h' : addr = st.heap.length := ho
              omega)]
          have hne : (⟨addr, k⟩ : FieldRef) ≠ ⟨addr, i⟩ := by
            intro he
            have : k = i := congrArg FieldRef.idx he
            omega
          rw [getField_setField_other _ _ _ _ hne]
          exact getField_allocObject _ _ _ (by show addr < _; omega)
        rw [hpre]
        exact hslots k (by omega) (by show k < i + (rest.length + 1); omega)
      have hrestwired := initFields_wired stS addr nm rest (i + 1)
        (by omega) hrestslots hsucc
      rw [wiredIn]
      refine ⟨⟨st.heap.length, haddr, by omega, hvalF, ?_⟩, hrestwired⟩
      refine wiredIn_stable stS _ subName st.heap.length subFields 0
        (by omega) ?_ hsubwired0
      intro r hl ha hcond
      refine g5 r (by omega) ?_
      intro ho
      exfalso
      omega
termination_by sizeOf fs


/-- C8: calling `Init` twice in succession on the same record instance is
idempotent in its effect on every string field — each named field, and
(via the wiring description) each string field of embedded sub-records,
holds the same declaration-determined value after the second `Init` as
after the first — both walks succeed, the locale registry and the active
dictionary are untouched, and the only difference in factory state is that
a refresh-callback list with the same (default pattern, key) entry per
string field is appended a second time. -/
theorem C8_init_twice (st : St) (addr : Nat) (ty : StructType)
    (hpan : initPanic ty.sfields = none)
    (haddr : addr < st.heap.length)
    (hslots : ∀ k, k < ty.sfields.length →
      (getField st ⟨addr, k⟩).isSome = true) :
    (Init st addr ty).1 = none ∧
    (Init (Init st addr ty).2 addr ty).1 = none ∧
    (∀ j n dp fty, ty.sfields[j]? = some (.named n dp fty) →
      getField (Init (Init st addr ty).2 addr ty).2 ⟨addr, j⟩
        = getField (Init st addr ty).2 ⟨addr, j⟩) ∧
    wiredIn (Init st addr ty).2 ty.sname addr ty.sfields 0 ∧
    wiredIn (Init (Init st addr ty).2 addr ty).2 ty.sname addr ty.sfields 0 ∧
    (Init (Init st addr ty).2 addr ty).2.locales
      = (Init st addr ty).2.locales ∧
    (Init (Init st addr ty).2 addr ty).2.dictionary
      = (Init st addr ty).2.dictionary ∧
    (∃ d1, (Init st addr ty).2.stringInitializers
        = st.stringInitializers ++ d1
      ∧ d1.map (fun cb => (cb.pattern, cb.key)) = cbSpec ty.sname ty.sfields) ∧
    (∃ d2, (Init (Init st addr ty).2 addr ty).2.stringInitializers
        = (Init st addr ty).2.stringInitializers ++ d2
      ∧ d2.map (fun cb => (cb.pattern, cb.key)) = cbSpec ty.sname ty.sfields) := by
  have hsucc1 : (initFields st addr ty.sname ty.sfields 0).1 = none := by
    rw [initFields_fst]
    exact hpan
  have w1 := initFields_wired st addr ty.sname ty.sfields 0 haddr
    (fun k _ hk => hslots k (by omega)) hsucc1
  obtain ⟨a1, a2, a3, _, a5⟩ := initFields_general st addr ty.sname ty.sfields 0
  have haddr2 : addr < (initFields st addr ty.sname ty.sfields 0).2.heap.length :=
    by omega
  have hslots2 : ∀ k, k < ty.sfields.length →
      (getField (initFields st addr ty.sname ty.sfields 0).2
        ⟨addr, k⟩).isSome = true := by
    intro k hk
    have := wiredIn_slots _ _ _ _ _ w1 k hk
    rw [show (⟨addr, 0 + k⟩ : FieldRef) = ⟨addr, k⟩ by simp] at this
    exact this
  have hsucc2 : (initFields (initFields st addr ty.sname ty.sfields 0).2
      addr ty.sname ty.sfields 0).1 = none := by
    rw [initFields_fst]
    exact hpan
  have w2 := initFields_wired (initFields st addr ty.sname ty.sfields 0).2
    addr ty.sname ty.sfields 0 haddr2
    (fun k _ hk => hslots2 k (by omega)) hsucc2
  obtain ⟨b1, b2, _, _, _⟩ := initFields_general
    (initFields st addr ty.sname ty.sfields 0).2 addr ty.sname ty.sfields 0
  refine ⟨hsucc1, hsucc2, ?_, w1, w2, b1, b2,
    initFields_cbs st addr ty.sname ty.sfields 0 hsucc1,
    initFields_cbs (initFields st addr ty.sname ty.sfields 0).2
      addr ty.sname ty.sfields 0 hsucc2⟩
  intro j n dp fty hj
  have hv1 := wiredIn_getElem _ _ _ _ _ w1 j n dp fty hj
  have hv2 := wiredIn_getElem _ _ _ _ _ w2 j n dp fty hj
  rw [show (⟨addr, 0 + j⟩ : FieldRef) = ⟨addr, j⟩ by simp] at hv1 hv2
  show getField (initFields (initFields st addr ty.sname ty.sfields 0).2
      addr ty.sname ty.sfields 0).2 ⟨addr, j⟩
    = getField (initFields st addr ty.sname ty.sfields 0).2 ⟨addr, j⟩
  rw [hv1, hv2]

/-- Witness record for C8: one string field and one func field. -/
def c8ty : StructType :=
  ⟨"T", [.named "A" "pa" (.stringType none), .named "B" "pb" (.funcType 1 none)]⟩

def c8st : St := allocObject New c8ty.sfields

/-- Witness for C8 at the concrete two-field record. -/
theorem C8_witness :
    (Init c8st 0 c8ty).1 = none ∧
    (Init (Init c8st 0 c8ty).2 0 c8ty).1 = none ∧
    getField (Init (Init c8st 0 c8ty).2 0 c8ty).2 ⟨0, 0⟩
      = getField (Init c8st 0 c8ty).2 ⟨0, 0⟩ ∧
    (∃ d2, (Init (Init c8st 0 c8ty).2 0 c8ty).2.stringInitializers
        = (Init c8st 0 c8ty).2.stringInitializers ++ d2
      ∧ d2.map (fun cb => (cb.pattern, cb.key)) = [("pa", "T.A")]) := by
  have h := C8_init_twice c8st 0 c8ty
    (by simp [initPanic, c8ty])
    (by decide)
    (by
      intro k hk
      simp [c8ty] at hk
      interval_cases k <;> rfl)
  refine ⟨h.1, h.2.1, h.2.2.1 0 "A" "pa" (.stringType none) rfl, ?_⟩
  obtain ⟨d2, hd2, hd2m⟩ := h.2.2.2.2.2.2.2.2
  exact ⟨d2, hd2, by simpa [cbSpec, c8ty] using hd2m⟩

/-! Claim C9. -/

/-- C9: initializing an embedded (anonymous) sub-record allocates a fresh
instance at the next heap address, assigns a non-nil pointer to it into
the parent field, and recursively initializes the sub-record's own fields,
wiring them — values and refresh callbacks with message keys derived from
the sub-record's own type name — independently of the parent; the
anonymous branch of the struct walk is exactly this routine. -/
theorem C9_embedded_init (st : St) (parentField : FieldRef)
    (subName : String) (subFields : List FieldDecl)
    (hpan : initPanic subFields = none)
    (hvalid : (getField st parentField).isSome = true) :
    (initializeEmbeddedStruct st parentField subName subFields).1 = none ∧
    getField (initializeEmbeddedStruct st parentField subName subFields).2
        parentField = some (.ptr st.heap.length) ∧
    (((initializeEmbeddedStruct st parentField subName
        subFields).2.heap[st.heap.length]?).isSome) = true ∧
    wiredIn (initializeEmbeddedStruct st parentField subName subFields).2
        subName st.heap.length subFields 0 ∧
    (∃ d, (initializeEmbeddedStruct st parentField subName
        subFields).2.stringInitializers = st.stringInitializers ++ d
      ∧ d.map (fun cb => (cb.pattern, cb.key)) = cbSpec subName subFields) ∧
    (∀ (st' : St) (addr : Nat) (nm : String) (rest : List FieldDecl) (i : Nat),
      initFields st' addr nm (.anonymous subName subFields :: rest) i
        = match initializeEmbeddedStruct st' ⟨addr, i⟩ subName subFields with
          | (some msg, s) => (some msg, s)
          | (none, s) => initFields s addr nm rest (i + 1)) := by
  have hobj : parentField.obj < st.heap.length :=
    obj_lt_of_getField_isSome st parentField hvalid
  have hst2len : (setField (allocObject st subFields) parentField
      (.ptr st.heap.length)).heap.length = st.heap.length + 1 := by
    rw [setField_heap_length]
    simp [allocObject]
  have hsucc : (initFields
      (setField (allocObject st subFields) parentField (.ptr st.heap.length))
      st.heap.length subName subFields 0).1 = none := by
    rw [initFields_fst]
    exact hpan
  have hsubslots : ∀ k, 0 ≤ k → k < 0 + subFields.length →
      (getField (setField (allocObject st subFields) parentField
        (.ptr st.heap.length)) ⟨st.heap.length, k⟩).isSome = true := by
    intro k _ hk
    have hne : (⟨st.heap.length, k⟩ : FieldRef) ≠ parentField := by
      intro he
      have : st.heap.length = parentField.obj := congrArg FieldRef.obj he
      omega
    rw [getField_setField_other _ _ _ _ hne]
    unfold getField
    rw [show (allocObject st subFields).heap[st.heap.length]?
        = some ⟨subFields.map zeroVal⟩ from by
      unfold allocObject
      exact List.getElem?_concat_length _ _]
    have hk' : k < (subFields.map zeroVal).length := by simp; omega
    simp [List.getElem?_eq_getElem hk']
  have w := initFields_wired
    (setField (allocObject st subFields) parentField (.ptr st.heap.length))
    st.heap.length subName subFields 0 (by omega) hsubslots hsucc
  obtain ⟨s1, s2, s3, _, s5⟩ := initFields_general
    (setField (allocObject st subFields) parentField (.ptr st.heap.length))
    st.heap.length subName subFields 0
  have hval2 : getField (setField (allocObject st subFields) parentField
      (.ptr st.heap.length)) parentField = some (.ptr st.heap.length) := by
    refine getField_setField_self _ _ _ ?_
    rw [getField_allocObject _ _ _ hobj]
    exact hvalid
  obtain ⟨d, hd, hdm⟩ := initFields_cbs
    (setField (allocObject st subFields) parentField (.ptr st.heap.length))
    st.heap.length subName subFields 0 hsucc
  refine ⟨hsucc, ?_, ?_, w, ⟨d, ?_, hdm⟩, ?_⟩
  case refine_3 =>
    show (initFields
        (setField (allocObject st subFields) parentField (.ptr st.heap.length))
        st.heap.length subName subFields 0).2.stringInitializers
      = st.stringInitializers ++ d
    rw [hd]
    rfl
  · show getField (initFields
        (setField (allocObject st subFields) parentField (.ptr st.heap.length))
        st.heap.length subName subFields 0).2 parentField
      = some (.ptr st.heap.length)
    rw [s5 parentField (by omega)
      (by
        intro ho
        exfalso
        omega)]
    exact hval2
  · show (((initFields
        (setField (allocObject st subFields) parentField (.ptr st.heap.length))
        st.heap.length subName subFields 0).2.heap[st.heap.length]?).isSome)
      = true
    rw [List.getElem?_eq_getElem (by omega)]
    rfl
  · intro st' addr nm rest i
    simp only [initFields, initializeEmbeddedStruct]

/-- Witness state for C9: a parent object with one (nil) embedded slot. -/
def c9st : St :=
  { locales := [], dictionary := [], stringInitializers := [],
    heap := [⟨[.nilPtr]⟩] }

/-- Witness for C9: the embedded sub-record with one string field gets a
fresh instance at address 1, wired with key `S.A`. -/
theorem C9_witness :
    (initializeEmbeddedStruct c9st ⟨0, 0⟩ "S"
        [.named "A" "pa" (.stringType none)]).1 = none ∧
    getField (initializeEmbeddedStruct c9st ⟨0, 0⟩ "S"
        [.named "A" "pa" (.stringType none)]).2 ⟨0, 0⟩ = some (.ptr 1) ∧
    getField (initializeEmbeddedStruct c9st ⟨0, 0⟩ "S"
        [.named "A" "pa" (.stringType none)]).2 ⟨1, 0⟩ = some (.str "pa") := by
  have h := C9_embedded_init c9st ⟨0, 0⟩ "S" [.named "A" "pa" (.stringType none)]
    (by simp [initPanic])
    rfl
  refine ⟨h.1, h.2.1, ?_⟩
  have hw := h.2.2.2.1
  rw [wiredIn] at hw
  exact hw.1

end G11n
